import Mathlib

/-!
Verification of the MinecraftLightServer repository (Go, protocol 754).

A shallow embedding of the wire-type codec (types.go), the packet framer
(packet.go), the handshake parser (player.go), the registry and broadcast
operations (server.go), and the Play dispatch chunk-change condition
(connection.go).  Byte streams are `List Nat` with every element a byte
value (< 256); readers are state-passing functions from a stream to a
result together with the unread remainder of the stream, mirroring the
cursor behaviour of `io.Reader`/`bytes.Buffer` in the source.  Machine
integers are `Int`/`Nat` with explicit two's-complement conversions.
-/

/-- Outcome of a Go read: a value, an error return, or a runtime panic. -/
inductive ReadRes (α : Type) where
  | ok (a : α) : ReadRes α
  | ioErr : ReadRes α
  | crash : ReadRes α
  deriving DecidableEq, Repr

/-- Map a function over a successful read result. -/
def ReadRes.map {α β : Type} (f : α → β) : ReadRes α → ReadRes β
  | .ok a => .ok (f a)
  | .ioErr => .ioErr
  | .crash => .crash

/-- Two's-complement interpretation of a `w`-bit pattern, as in Go's
signed integer conversions. -/
def toSigned (w n : Nat) : Int :=
  if n < 2 ^ (w - 1) then (n : Int) else (n : Int) - 2 ^ w

/-- The `w`-bit pattern of an integer: Go's conversion to an unsigned
integer of width `w` (wraps modulo `2 ^ w`). -/
def toUnsigned (w : Nat) (v : Int) : Nat :=
  (v % ((2 : Int) ^ w)).toNat

/-- readByte (types.go): read one byte from the stream. -/
def readByte : List Nat → ReadRes Nat × List Nat
  | [] => (.ioErr, [])
  | b :: r => (.ok b, r)

/-- io.ReadFull of `n` bytes: succeeds only when `n` bytes are available;
on a short stream everything available is consumed and an error returned. -/
def readFull (n : Nat) (s : List Nat) : ReadRes (List Nat) × List Nat :=
  if s.length < n then (.ioErr, s.drop n) else (.ok (s.take n), s.drop n)

/-- A single `Read` call into a zero-initialised buffer of size `n`
(bytes.Buffer semantics): returns an error only when `n > 0` and nothing
is available; otherwise it fills the buffer with what is available and
leaves the rest of the buffer zero. -/
def readOnce (n : Nat) (s : List Nat) : ReadRes (List Nat) × List Nat :=
  if n = 0 then (.ok [], s)
  else if s = [] then (.ioErr, s)
  else (.ok (s.take n ++ List.replicate (n - min n s.length) 0), s.drop n)

/-- Big-endian byte recombination: `bs[0] << 8(k-1) | ... | bs[k-1]`; for
byte values the Go `|` of the disjoint shifted fields is this sum. -/
def beVal (bs : List Nat) : Nat := bs.foldl (fun a b => a * 256 + b) 0

/-- Boolean.WriteTo (types.go): true = 0x01, false = 0x00. -/
def booleanWriteTo (b : Bool) : List Nat := if b then [1] else [0]

/-- Boolean.ReadFrom (types.go): any nonzero byte is true. -/
def booleanReadFrom (s : List Nat) : ReadRes Bool × List Nat :=
  match readByte s with
  | (.ok v, r) => (.ok (v ≠ 0), r)
  | (e, r) => (e.map (fun _ => false), r)

/-- Byte.WriteTo (types.go): the low 8 bits of the signed value. -/
def byteWriteTo (b : Int) : List Nat := [toUnsigned 8 b]

/-- Byte.ReadFrom (types.go): `Byte(v)` reinterprets the byte as int8. -/
def byteReadFrom (s : List Nat) : ReadRes Int × List Nat :=
  match readByte s with
  | (.ok v, r) => (.ok (toSigned 8 v), r)
  | (e, r) => (e.map (fun _ => 0), r)

/-- UnsignedByte.WriteTo (types.go). -/
def unsignedByteWriteTo (u : Nat) : List Nat := [u % 256]

/-- UnsignedByte.ReadFrom (types.go). -/
def unsignedByteReadFrom (s : List Nat) : ReadRes Nat × List Nat := readByte s

/-- Short.WriteTo (types.go): big-endian bytes of `uint16(s)`. -/
def shortWriteTo (v : Int) : List Nat :=
  [toUnsigned 16 v / 2 ^ 8 % 256, toUnsigned 16 v % 256]

/-- Short.ReadFrom (types.go): two bytes recombined and reinterpreted as
int16 (the Go `int16(bs[0])<<8 | int16(bs[1])` wraps two's-complement). -/
def shortReadFrom (s : List Nat) : ReadRes Int × List Nat :=
  match readFull 2 s with
  | (.ok bs, r) => (.ok (toSigned 16 (beVal bs)), r)
  | (e, r) => (e.map (fun _ => 0), r)

/-- UnsignedShort.WriteTo (types.go). -/
def unsignedShortWriteTo (u : Nat) : List Nat :=
  [u % 2 ^ 16 / 2 ^ 8 % 256, u % 2 ^ 16 % 256]

/-- UnsignedShort.ReadFrom (types.go). -/
def unsignedShortReadFrom (s : List Nat) : ReadRes Nat × List Nat :=
  match readFull 2 s with
  | (.ok bs, r) => (.ok (beVal bs), r)
  | (e, r) => (e.map (fun _ => 0), r)

/-- Int.WriteTo (types.go): big-endian bytes of `uint32(i)`. -/
def intWriteTo (i : Int) : List Nat :=
  [toUnsigned 32 i / 2 ^ 24 % 256, toUnsigned 32 i / 2 ^ 16 % 256,
   toUnsigned 32 i / 2 ^ 8 % 256, toUnsigned 32 i % 256]

/-- Int.ReadFrom (types.go): four bytes recombined, reinterpreted int32. -/
def intReadFrom (s : List Nat) : ReadRes Int × List Nat :=
  match readFull 4 s with
  | (.ok bs, r) => (.ok (toSigned 32 (beVal bs)), r)
  | (e, r) => (e.map (fun _ => 0), r)

/-- Big-endian bytes of a 64-bit pattern, as produced by Long.WriteTo and
by the byte loop of Position.WriteTo (types.go). -/
def beBytes8 (n : Nat) : List Nat :=
  [n / 2 ^ 56 % 256, n / 2 ^ 48 % 256, n / 2 ^ 40 % 256, n / 2 ^ 32 % 256,
   n / 2 ^ 24 % 256, n / 2 ^ 16 % 256, n / 2 ^ 8 % 256, n % 256]

/-- Long.WriteTo (types.go): big-endian bytes of `uint64(l)`. -/
def longWriteTo (l : Int) : List Nat := beBytes8 (toUnsigned 64 l)

/-- Long.ReadFrom (types.go): eight bytes recombined, reinterpreted int64. -/
def longReadFrom (s : List Nat) : ReadRes Int × List Nat :=
  match readFull 8 s with
  | (.ok bs, r) => (.ok (toSigned 64 (beVal bs)), r)
  | (e, r) => (e.map (fun _ => 0), r)

/-- Go's 32-bit unsigned left shift: shift counts of 32 or more give 0. -/
def shift32 (x k : Nat) : Nat := if k < 32 then x * 2 ^ k % 2 ^ 32 else 0

/-- Go's 64-bit unsigned left shift: shift counts of 64 or more give 0. -/
def shift64 (x k : Nat) : Nat := if k < 64 then x * 2 ^ k % 2 ^ 64 else 0

/-- The emit loop shared by VarInt.WriteTo and VarLong.WriteTo (types.go):
7 payload bits per byte, little-endian groups, 0x80 continuation bit. -/
def writeVarAux (n : Nat) : List Nat :=
  if _h : n < 128 then [n] else (n % 128 + 128) :: writeVarAux (n / 128)
termination_by n
decreasing_by exact Nat.div_lt_self (by omega) (by omega)

/-- VarInt.WriteTo (types.go): encodes `uint32(v)`. -/
def varIntWriteTo (v : Int) : List Nat := writeVarAux (toUnsigned 32 v)

/-- VarLong.WriteTo (types.go): encodes `uint64(v)`. -/
def varLongWriteTo (v : Int) : List Nat := writeVarAux (toUnsigned 64 v)

/-- The read loop of VarInt.ReadFrom (types.go).  The Go guard is
`n > maxVarIntLen` with `maxVarIntLen = 5`, checked before each byte
read, so bytes are consumed at indices 0..5 — six of them — before the
guard fires.  A byte below 0x80 terminates the loop. -/
def readVarIntLoop (i acc : Nat) : List Nat → ReadRes Nat × List Nat
  | [] => (.ioErr, [])
  | b :: r =>
    if 5 < i then (.ioErr, b :: r)
    else
      let acc2 := acc ||| shift32 (b % 128) (7 * i)
      if b % 128 = b then (.ok acc2, r) else readVarIntLoop (i + 1) acc2 r

/-- VarInt.ReadFrom (types.go): accumulated uint32 reinterpreted int32. -/
def varIntReadFrom (s : List Nat) : ReadRes Int × List Nat :=
  ((readVarIntLoop 0 0 s).1.map (toSigned 32), (readVarIntLoop 0 0 s).2)

/-- The read loop of VarLong.ReadFrom (types.go).  Here the guard is
`n >= maxVarLongLen` with `maxVarLongLen = 10`, so at most ten bytes are
consumed and an eleventh continuation byte is rejected unread. -/
def readVarLongLoop (i acc : Nat) : List Nat → ReadRes Nat × List Nat
  | [] => (.ioErr, [])
  | b :: r =>
    if 10 ≤ i then (.ioErr, b :: r)
    else
      let acc2 := acc ||| shift64 (b % 128) (7 * i)
      if b % 128 = b then (.ok acc2, r) else readVarLongLoop (i + 1) acc2 r

/-- VarLong.ReadFrom (types.go): accumulated uint64 reinterpreted int64. -/
def varLongReadFrom (s : List Nat) : ReadRes Int × List Nat :=
  ((readVarLongLoop 0 0 s).1.map (toSigned 64), (readVarLongLoop 0 0 s).2)

/-- Float.WriteTo (types.go) writes `Int(math.Float32bits(f))`; the codec
only moves the 32-bit pattern, so a Float is modelled by its pattern. -/
def floatWriteTo (bits : Nat) : List Nat := intWriteTo (toSigned 32 bits)

/-- Float.ReadFrom (types.go): reads an Int, pattern = `uint32(v)`. -/
def floatReadFrom (s : List Nat) : ReadRes Nat × List Nat :=
  match intReadFrom s with
  | (res, r) => (res.map (toUnsigned 32), r)

/-- Double.WriteTo (types.go): the 64-bit pattern through Long.WriteTo. -/
def doubleWriteTo (bits : Nat) : List Nat := longWriteTo (toSigned 64 bits)

/-- Double.ReadFrom (types.go): reads a Long, pattern = `uint64(v)`. -/
def doubleReadFrom (s : List Nat) : ReadRes Nat × List Nat :=
  match longReadFrom s with
  | (res, r) => (res.map (toUnsigned 64), r)

/-- String.WriteTo (types.go): `VarInt(len(bytes))` then the raw bytes. -/
def stringWriteTo (s : List Nat) : List Nat :=
  varIntWriteTo (s.length : Int) ++ s

/-- String.ReadFrom (types.go): reads a VarInt length then that many
bytes with io.ReadFull.  The Go code allocates `make([]byte, l)` with the
decoded signed length, which panics at runtime when `l` is negative. -/
def stringReadFrom (s : List Nat) : ReadRes (List Nat) × List Nat :=
  match varIntReadFrom s with
  | (.ok l, r) =>
    if l < 0 then (.crash, r)
    else
      match readFull l.toNat r with
      | (.ok bs, r2) => (.ok bs, r2)
      | (e, r2) => (e, r2)
  | (e, r) => (e.map (fun _ => []), r)

/-- UUID.WriteTo (types.go): the 16 raw bytes. -/
def uuidWriteTo (u : List Nat) : List Nat := u

/-- UUID.ReadFrom (types.go): io.ReadFull of 16 bytes. -/
def uuidReadFrom (s : List Nat) : ReadRes (List Nat) × List Nat := readFull 16 s

/-- Position.WriteTo (types.go): packs `x&0x3FFFFFF` into bits 38..63,
`z&0x3FFFFFF` into bits 12..37 and `y&0xFFF` into bits 0..11 (the Go
masks are two's-complement, i.e. Euclidean remainders, and the `|` of the
disjoint fields is their sum), then writes the eight big-endian bytes. -/
def positionWriteTo (x y z : Int) : List Nat :=
  beBytes8 ((toUnsigned 26 x) * 2 ^ 38 + (toUnsigned 26 z) * 2 ^ 12 + toUnsigned 12 y)

/-- Position.ReadFrom (types.go): reads a Long `v`, extracts
`x = v >> 38` (arithmetic shift = floor division), `y = v & 0xFFF`,
`z = v << 26 >> 38` (the left shift wraps in int64), then applies the
explicit sign fix-ups of the source. -/
def positionReadFrom (s : List Nat) : ReadRes (Int × Int × Int) × List Nat :=
  match longReadFrom s with
  | (.ok v, r) =>
    let x0 : Int := v / 2 ^ 38
    let y0 : Int := v % 2 ^ 12
    let z0 : Int := toSigned 64 (toUnsigned 64 (v * 2 ^ 26)) / 2 ^ 38
    let x : Int := if 2 ^ 25 ≤ x0 then x0 - 2 ^ 26 else x0
    let y : Int := if 2 ^ 11 ≤ y0 then y0 - 2 ^ 12 else y0
    let z : Int := if 2 ^ 25 ≤ z0 then z0 - 2 ^ 26 else z0
    (.ok (x, y, z), r)
  | (e, r) => (e.map (fun _ => (0, 0, 0)), r)

/-- Modelled from the spec: `VarInt.Len` (used by Packet.Pack as `id.Len()`
but not among the source files) — the byte length of the VarInt encoding,
the spec's `id_len`. -/
def varIntLen (v : Int) : Nat := (varIntWriteTo v).length

/-- Packet.Pack (packet.go): appends
`VarInt(id_len + body_len) | VarInt(id) | body` as one contiguous flush.
The Go length expression `id.Len() + pk.data.Len()` is an int converted
to VarInt, wrapping two's-complement (the conversion happens inside
varIntWriteTo). -/
def packetPack (pid : Int) (data : List Nat) : List Nat :=
  varIntWriteTo ((varIntLen pid : Int) + (data.length : Int)) ++
    varIntWriteTo pid ++ data

/-- Packet.Unpack (packet.go): decodes the VarInt length prefix, rejects
`length < 1`, fills a `length`-byte buffer with a single `r.Read` call,
then decodes the VarInt packet id from the front of the buffer; the
remainder of the buffer is the body.  Returns (id, body) and the unread
stream. -/
def packetUnpack (s : List Nat) : ReadRes (Int × List Nat) × List Nat :=
  match varIntReadFrom s with
  | (.ok length, r) =>
    if length < 1 then (.ioErr, r)
    else
      match readOnce length.toNat r with
      | (.ok buf, r2) =>
        match varIntReadFrom buf with
        | (.ok pid, body) => (.ok (pid, body), r2)
        | (_, _) => (.ioErr, r2)
      | (_, r2) => (.ioErr, r2)
  | (_, r) => (.ioErr, r)

/-- Player.readHandshake (player.go): parses the handshake packet body.
Returns the parsed next-state field (none when the version read fails and
the function returns early) and the error value.  The source assigns the
protocol-version error to the named return `err`, does not return, and
later overwrites `err` with the result of the next-state read — so a bad
protocol version with a well-formed, valid next state yields a nil error;
this embedding mirrors that assignment sequence exactly. -/
def readHandshake (data : List Nat) : Option Int × Option String :=
  match varIntReadFrom data with
  | (.ok version, r1) =>
    -- err after the version check; dead below: the next-state read
    -- reassigns err before any return uses this value
    let _errV : Option String :=
      if version ≠ 754 then some "wrong protocol version" else none
    -- discard server address and port, errors ignored
    let r2 := (stringReadFrom r1).2
    let r3 := (readFull 2 r2).2
    -- next state: the read result overwrites err
    match varIntReadFrom r3 with
    | (.ok st, _) =>
      if st ≠ 1 ∧ st ≠ 2 then (some st, some "wrong next state")
      else (some st, none)
    | (_, _) => (some 0, some "read error")
  | (_, _) => (none, some "read error")

/-- A connected player as mutated through its Go pointer: identity,
username and the two destruction effects of removePlayer (server.go). -/
structure PlayerSt where
  username : String
  isDeleted : Bool
  connClosed : Bool
  deriving DecidableEq, Repr

/-- The server registry state: the sync.Map from username to a player
reference (modelled as an index into a heap of player records, standing
for the Go pointer), and the online counter. -/
structure ServerSt where
  reg : List (String × Nat)
  heap : Nat → PlayerSt
  counter : Int

/-- sync.Map Load. -/
def regLoad (reg : List (String × Nat)) (u : String) : Option Nat :=
  match reg.find? (fun e => e.1 = u) with
  | some e => some e.2
  | none => none

/-- sync.Map Store (replace or insert). -/
def regStore (reg : List (String × Nat)) (u : String) (pk : Nat) :
    List (String × Nat) :=
  if (reg.find? (fun e => e.1 = u)).isSome then
    reg.map (fun e => if e.1 = u then (u, pk) else e)
  else reg ++ [(u, pk)]

/-- sync.Map LoadAndDelete. -/
def regLoadAndDelete (reg : List (String × Nat)) (u : String) :
    Option Nat × List (String × Nat) :=
  (regLoad reg u, reg.filter (fun e => ¬ e.1 = u))

/-- Update one player record in the heap. -/
def updHeap (h : Nat → PlayerSt) (k : Nat) (p : PlayerSt) : Nat → PlayerSt :=
  fun k2 => if k2 = k then p else h k2

/-- Server.removePlayer (server.go): marks the player deleted, closes its
connection, and if LoadAndDelete finds an entry under its username,
decrements the online counter (removal packets to the remaining sessions
are not part of the registry state). -/
def removePlayer (s : ServerSt) (pk : Nat) : ServerSt :=
  let p := s.heap pk
  let h2 := updHeap s.heap pk { p with isDeleted := true, connClosed := true }
  match regLoadAndDelete s.reg p.username with
  | (some _, reg2) => { reg := reg2, heap := h2, counter := s.counter - 1 }
  | (none, reg2) => { reg := reg2, heap := h2, counter := s.counter }

/-- Server.addPlayer (server.go): when a player is already stored under
the same username it is removed first via removePlayer; otherwise the
counter is incremented; then the new player is stored. -/
def addPlayer (s : ServerSt) (pk : Nat) : ServerSt :=
  let u := (s.heap pk).username
  match regLoad s.reg u with
  | some prev =>
    let s2 := removePlayer s prev
    { s2 with reg := regStore s2.reg u pk }
  | none =>
    { s with counter := s.counter + 1, reg := regStore s.reg u pk }

/-- Server.broadcastChatMessage (server.go): iterates the registry; for
each session it writes the chat packet, and on a write error calls
removePlayerAndExit, which removes that player and then runs
`runtime.Goexit()` — terminating the goroutine that runs the broadcast
(the sender's handler) and abandoning the rest of the iteration.
`fail pk` says whether the write to player `pk` fails.  Returns the final
state, the players the message was delivered to (in order), and whether
the broadcasting goroutine was killed by Goexit. -/
def broadcastChatLoop (fail : Nat → Bool) :
    List (String × Nat) → ServerSt → List Nat → ServerSt × List Nat × Bool
  | [], st, sent => (st, sent.reverse, false)
  | (_, pk) :: rest, st, sent =>
    if fail pk then (removePlayer st pk, sent.reverse, true)
    else broadcastChatLoop fail rest st (pk :: sent)

/-- Entry point of the broadcast: Range iterates the registry entries. -/
def broadcastChatMessage (s : ServerSt) (fail : Nat → Bool) :
    ServerSt × List Nat × Bool :=
  broadcastChatLoop fail s.reg s []

/-- Modelled from the spec: `coordinateToChunk` (called by connection.go
and player.go but not among the source files) — the chunk coordinate of a
world-space coordinate, `floor(coord / 16)`. -/
def coordinateToChunk (c : ℚ) : Int := ⌊c / 16⌋

/-- The chunk-change test of the Play dispatch for Player Position (0x12)
and Player Position And Rotation (0x13) (connection.go): Update View
Position is sent when `p.z != oldZ || coordinateToChunk(p.x) !=
coordinateToChunk(oldX)` — the z axis compares raw coordinates, the
x axis compares chunk coordinates.  Doubles are modelled as rationals
(exact for the values below; Go `!=` on non-NaN doubles is equality). -/
def positionChunkChanged (oldX oldZ newX newZ : ℚ) : Bool :=
  (newZ != oldZ) || (coordinateToChunk newX != coordinateToChunk oldX)

/-! ## Helper lemmas -/

theorem writeVarAux_small {n : Nat} (h : n < 128) : writeVarAux n = [n] := by
  unfold writeVarAux
  exact dif_pos h

theorem writeVarAux_large {n : Nat} (h : ¬ n < 128) :
    writeVarAux n = (n % 128 + 128) :: writeVarAux (n / 128) := by
  conv_lhs => rw [writeVarAux]
  exact dif_neg h

theorem writeVarAux_length_pos (n : Nat) : 0 < (writeVarAux n).length := by
  by_cases h : n < 128
  · rw [writeVarAux_small h]; simp
  · rw [writeVarAux_large h]; simp

theorem lor_disjoint {a b k : Nat} (h : a < 2 ^ k) :
    a ||| b * 2 ^ k = a + b * 2 ^ k := by
  rw [Nat.lor_comm, mul_comm]
  rw [← Nat.mul_add_lt_is_or h b]
  omega

theorem readFull_append {n : Nat} {bs rest : List Nat} (h : bs.length = n) :
    readFull n (bs ++ rest) = (.ok bs, rest) := by
  subst h
  unfold readFull
  rw [if_neg (by simp), List.take_left, List.drop_left]

/-- Loop invariant for decoding an encoded group sequence: reaching index
`i ≤ 4` with accumulator bits below `7 i` and a remaining value small
enough to fit, the loop returns the combined value. -/
theorem readVarIntLoop_spec (m : Nat) :
    ∀ i acc rest, i ≤ 4 → m < 2 ^ (32 - 7 * i) → acc < 2 ^ (7 * i) →
      readVarIntLoop i acc (writeVarAux m ++ rest) =
        (.ok (acc + m * 2 ^ (7 * i)), rest) := by
  induction m using Nat.strong_induction_on with
  | _ m ih =>
    intro i acc rest hi hm hacc
    have hguard : ¬ 5 < i := by omega
    have h7i : 7 * i < 32 := by omega
    by_cases h : m < 128
    · rw [writeVarAux_small h]
      have hm128 : m % 128 = m := Nat.mod_eq_of_lt h
      have hlt : m * 2 ^ (7 * i) < 2 ^ 32 := by
        calc m * 2 ^ (7 * i) < 2 ^ (32 - 7 * i) * 2 ^ (7 * i) :=
              mul_lt_mul_of_pos_right hm (Nat.pos_pow_of_pos _ (by omega))
          _ = 2 ^ 32 := by rw [← pow_add]; congr 1; omega
      have key : acc ||| shift32 m (7 * i) = acc + m * 2 ^ (7 * i) := by
        rw [shift32, if_pos h7i, Nat.mod_eq_of_lt hlt, lor_disjoint hacc]
      simp [readVarIntLoop, hguard, hm128, key]
    · rw [writeVarAux_large h]
      have hmod : (m % 128 + 128) % 128 = m % 128 := by omega
      have hne : ¬ m % 128 = m % 128 + 128 := by omega
      have hi3 : i ≤ 3 := by
        rcases Nat.lt_or_ge i 4 with h4 | h4
        · omega
        · exfalso
          have he4 : i = 4 := by omega
          subst he4
          norm_num at hm
          omega
      have hb : m % 128 < 128 := Nat.mod_lt _ (by omega)
      have hlt : m % 128 * 2 ^ (7 * i) < 2 ^ 32 := by
        have h21 : (2 : Nat) ^ (7 * i) ≤ 2 ^ 21 :=
          Nat.pow_le_pow_right (by omega) (by omega)
        nlinarith
      have key : acc ||| shift32 (m % 128) (7 * i) =
          acc + m % 128 * 2 ^ (7 * i) := by
        rw [shift32, if_pos h7i, Nat.mod_eq_of_lt hlt, lor_disjoint hacc]
      have hdiv : m / 128 < m := Nat.div_lt_self (by omega) (by omega)
      have hstep : acc + m % 128 * 2 ^ (7 * i) < 2 ^ (7 * (i + 1)) := by
        have h2 : 2 ^ (7 * (i + 1)) = 2 ^ (7 * i) * 128 := by
          rw [show 7 * (i + 1) = 7 * i + 7 by ring, pow_add]; norm_num
        nlinarith [hacc, hb]
      have hm2 : m / 128 < 2 ^ (32 - 7 * (i + 1)) := by
        have h2 : 2 ^ (32 - 7 * i) = 2 ^ (32 - 7 * (i + 1)) * 128 := by
          rw [show (32 - 7 * i) = (32 - 7 * (i + 1)) + 7 by omega, pow_add]
          norm_num
        rw [h2] at hm
        omega
      have hrec := ih (m / 128) hdiv (i + 1) (acc + m % 128 * 2 ^ (7 * i))
        rest (by omega) hm2 hstep
      have hfin : acc + m % 128 * 2 ^ (7 * i) + m / 128 * 2 ^ (7 * (i + 1)) =
          acc + m * 2 ^ (7 * i) := by
        have h2 : 2 ^ (7 * (i + 1)) = 2 ^ (7 * i) * 128 := by
          rw [show 7 * (i + 1) = 7 * i + 7 by ring, pow_add]; norm_num
        calc acc + m % 128 * 2 ^ (7 * i) + m / 128 * 2 ^ (7 * (i + 1))
            = acc + (m % 128 + 128 * (m / 128)) * 2 ^ (7 * i) := by
              rw [h2]; ring
          _ = acc + m * 2 ^ (7 * i) := by rw [Nat.mod_add_div]
      simp only [List.cons_append, readVarIntLoop, if_neg hguard, hmod,
        if_neg hne, key, List.append_eq, hrec, hfin]

/-- The 64-bit analogue of the loop invariant, for VarLong decoding. -/
theorem readVarLongLoop_spec (m : Nat) :
    ∀ i acc rest, i ≤ 9 → m < 2 ^ (64 - 7 * i) → acc < 2 ^ (7 * i) →
      readVarLongLoop i acc (writeVarAux m ++ rest) =
        (.ok (acc + m * 2 ^ (7 * i)), rest) := by
  induction m using Nat.strong_induction_on with
  | _ m ih =>
    intro i acc rest hi hm hacc
    have hguard : ¬ 10 ≤ i := by omega
    have h7i : 7 * i < 64 := by omega
    by_cases h : m < 128
    · rw [writeVarAux_small h]
      have hm128 : m % 128 = m := Nat.mod_eq_of_lt h
      have hlt : m * 2 ^ (7 * i) < 2 ^ 64 := by
        calc m * 2 ^ (7 * i) < 2 ^ (64 - 7 * i) * 2 ^ (7 * i) :=
              mul_lt_mul_of_pos_right hm (Nat.pos_pow_of_pos _ (by omega))
          _ = 2 ^ 64 := by rw [← pow_add]; congr 1; omega
      have key : acc ||| shift64 m (7 * i) = acc + m * 2 ^ (7 * i) := by
        rw [shift64, if_pos h7i, Nat.mod_eq_of_lt hlt, lor_disjoint hacc]
      simp [readVarLongLoop, hguard, hm128, key]
    · rw [writeVarAux_large h]
      have hmod : (m % 128 + 128) % 128 = m % 128 := by omega
      have hne : ¬ m % 128 = m % 128 + 128 := by omega
      have hi8 : i ≤ 8 := by
        rcases Nat.lt_or_ge i 9 with h9 | h9
        · omega
        · exfalso
          have he9 : i = 9 := by omega
          subst he9
          norm_num at hm
          omega
      have hb : m % 128 < 128 := Nat.mod_lt _ (by omega)
      have hlt : m % 128 * 2 ^ (7 * i) < 2 ^ 64 := by
        have h56 : (2 : Nat) ^ (7 * i) ≤ 2 ^ 56 :=
          Nat.pow_le_pow_right (by omega) (by omega)
        nlinarith
      have key : acc ||| shift64 (m % 128) (7 * i) =
          acc + m % 128 * 2 ^ (7 * i) := by
        rw [shift64, if_pos h7i, Nat.mod_eq_of_lt hlt, lor_disjoint hacc]
      have hdiv : m / 128 < m := Nat.div_lt_self (by omega) (by omega)
      have hstep : acc + m % 128 * 2 ^ (7 * i) < 2 ^ (7 * (i + 1)) := by
        have h2 : 2 ^ (7 * (i + 1)) = 2 ^ (7 * i) * 128 := by
          rw [show 7 * (i + 1) = 7 * i + 7 by ring, pow_add]; norm_num
        nlinarith [hacc, hb]
      have hm2 : m / 128 < 2 ^ (64 - 7 * (i + 1)) := by
        have h2 : 2 ^ (64 - 7 * i) = 2 ^ (64 - 7 * (i + 1)) * 128 := by
          rw [show (64 - 7 * i) = (64 - 7 * (i + 1)) + 7 by omega, pow_add]
          norm_num
        rw [h2] at hm
        omega
      have hrec := ih (m / 128) hdiv (i + 1) (acc + m % 128 * 2 ^ (7 * i))
        rest (by omega) hm2 hstep
      have hfin : acc + m % 128 * 2 ^ (7 * i) + m / 128 * 2 ^ (7 * (i + 1)) =
          acc + m * 2 ^ (7 * i) := by
        have h2 : 2 ^ (7 * (i + 1)) = 2 ^ (7 * i) * 128 := by
          rw [show 7 * (i + 1) = 7 * i + 7 by ring, pow_add]; norm_num
        calc acc + m % 128 * 2 ^ (7 * i) + m / 128 * 2 ^ (7 * (i + 1))
            = acc + (m % 128 + 128 * (m / 128)) * 2 ^ (7 * i) := by
              rw [h2]; ring
          _ = acc + m * 2 ^ (7 * i) := by rw [Nat.mod_add_div]
      simp only [List.cons_append, readVarLongLoop, if_neg hguard, hmod,
        if_neg hne, key, List.append_eq, hrec, hfin]

theorem toSigned_toUnsigned {w : Nat} {v : Int} (hw : 0 < w)
    (h1 : -(2 ^ (w - 1)) ≤ v) (h2 : v < 2 ^ (w - 1)) :
    toSigned w (toUnsigned w v) = v := by
  have hsplit : (2 : Int) ^ w = 2 ^ (w - 1) * 2 := by
    rw [← pow_succ]
    congr 1
    omega
  rcases le_or_lt 0 v with hv | hv
  · have hmod : v % (2 : Int) ^ w = v := Int.emod_eq_of_lt hv (by linarith)
    unfold toSigned toUnsigned
    rw [hmod, if_pos]
    · exact Int.toNat_of_nonneg hv
    · zify
      rw [Int.toNat_of_nonneg hv]
      exact h2
  · have hv2 : (0 : Int) ≤ v + 2 ^ w := by linarith
    have hlt2 : v + 2 ^ w < 2 ^ w := by linarith
    have hmod : v % (2 : Int) ^ w = v + 2 ^ w := by
      have h3 : (v + 2 ^ w * 1) % 2 ^ w = v % 2 ^ w :=
        Int.add_mul_emod_self_left v ((2 : Int) ^ w) 1
      rw [mul_one] at h3
      rw [← h3]
      exact Int.emod_eq_of_lt hv2 hlt2
    unfold toSigned toUnsigned
    rw [hmod, if_neg]
    · rw [Int.toNat_of_nonneg hv2]
      ring
    · intro hc
      zify at hc
      rw [Int.toNat_of_nonneg hv2] at hc
      linarith

theorem toUnsigned_lt (w : Nat) (v : Int) : toUnsigned w v < 2 ^ w := by
  unfold toUnsigned
  have h1 : 0 ≤ v % (2 : Int) ^ w := Int.emod_nonneg v (by positivity)
  have h2 : v % (2 : Int) ^ w < 2 ^ w := Int.emod_lt_of_pos v (by positivity)
  zify
  rw [Int.toNat_of_nonneg h1]
  exact h2

theorem toUnsigned_cast (w : Nat) (v : Int) :
    ((toUnsigned w v : Nat) : Int) = v % (2 : Int) ^ w := by
  unfold toUnsigned
  exact Int.toNat_of_nonneg (Int.emod_nonneg v (by positivity))

/-- VarInt round trip: decoding directly after an encoded int32 leaves the
rest of the stream untouched and recovers the value. -/
theorem varIntReadFrom_writeTo (v : Int) (rest : List Nat)
    (h1 : -(2 ^ 31) ≤ v) (h2 : v < 2 ^ 31) :
    varIntReadFrom (varIntWriteTo v ++ rest) = (.ok v, rest) := by
  have hu : toUnsigned 32 v < 2 ^ 32 := toUnsigned_lt 32 v
  have hloop := readVarIntLoop_spec (toUnsigned 32 v) 0 0 rest (by omega)
    (by norm_num; exact hu) (by norm_num)
  unfold varIntReadFrom varIntWriteTo
  rw [hloop]
  simp only [ReadRes.map, Nat.mul_zero, pow_zero, mul_one, Nat.zero_add]
  have := toSigned_toUnsigned (w := 32) (v := v) (by norm_num)
    (by norm_num; omega) (by norm_num; omega)
  rw [this]

/-- VarLong round trip for an int64 value. -/
theorem varLongReadFrom_writeTo (v : Int) (rest : List Nat)
    (h1 : -(2 ^ 63) ≤ v) (h2 : v < 2 ^ 63) :
    varLongReadFrom (varLongWriteTo v ++ rest) = (.ok v, rest) := by
  have hu : toUnsigned 64 v < 2 ^ 64 := toUnsigned_lt 64 v
  have hloop := readVarLongLoop_spec (toUnsigned 64 v) 0 0 rest (by omega)
    (by norm_num; exact hu) (by norm_num)
  unfold varLongReadFrom varLongWriteTo
  rw [hloop]
  simp only [ReadRes.map, Nat.mul_zero, pow_zero, mul_one, Nat.zero_add]
  have := toSigned_toUnsigned (w := 64) (v := v) (by norm_num)
    (by norm_num; omega) (by norm_num; omega)
  rw [this]

theorem booleanRoundTrip (b : Bool) (rest : List Nat) :
    booleanReadFrom (booleanWriteTo b ++ rest) = (.ok b, rest) := by
  cases b <;> simp [booleanWriteTo, booleanReadFrom, readByte]

theorem byteRoundTrip (b : Int) (rest : List Nat)
    (h1 : -(2 ^ 7) ≤ b) (h2 : b < 2 ^ 7) :
    byteReadFrom (byteWriteTo b ++ rest) = (.ok b, rest) := by
  simp only [byteWriteTo, List.cons_append, List.nil_append, byteReadFrom,
    readByte]
  have := toSigned_toUnsigned (w := 8) (v := b) (by norm_num)
    (by norm_num; omega) (by norm_num; omega)
  rw [this]

theorem unsignedByteRoundTrip (u : Nat) (rest : List Nat) (h : u < 256) :
    unsignedByteReadFrom (unsignedByteWriteTo u ++ rest) = (.ok u, rest) := by
  simp only [unsignedByteWriteTo, List.cons_append, List.nil_append,
    unsignedByteReadFrom, readByte, Nat.mod_eq_of_lt h]

theorem shortRoundTrip (v : Int) (rest : List Nat)
    (h1 : -(2 ^ 15) ≤ v) (h2 : v < 2 ^ 15) :
    shortReadFrom (shortWriteTo v ++ rest) = (.ok v, rest) := by
  have hu : toUnsigned 16 v < 2 ^ 16 := toUnsigned_lt 16 v
  have hfull : readFull 2 (shortWriteTo v ++ rest) =
      (.ok (shortWriteTo v), rest) :=
    readFull_append (by simp [shortWriteTo])
  have hval : beVal (shortWriteTo v) = toUnsigned 16 v := by
    simp [beVal, shortWriteTo]
    omega
  simp only [shortReadFrom, hfull, hval]
  have := toSigned_toUnsigned (w := 16) (v := v) (by norm_num)
    (by norm_num; omega) (by norm_num; omega)
  rw [this]

theorem unsignedShortRoundTrip (u : Nat) (rest : List Nat) (h : u < 2 ^ 16) :
    unsignedShortReadFrom (unsignedShortWriteTo u ++ rest) = (.ok u, rest) := by
  have hfull : readFull 2 (unsignedShortWriteTo u ++ rest) =
      (.ok (unsignedShortWriteTo u), rest) :=
    readFull_append (by simp [unsignedShortWriteTo])
  have hval : beVal (unsignedShortWriteTo u) = u := by
    simp [beVal, unsignedShortWriteTo]
    omega
  simp only [unsignedShortReadFrom, hfull, hval]

theorem intRoundTrip (v : Int) (rest : List Nat)
    (h1 : -(2 ^ 31) ≤ v) (h2 : v < 2 ^ 31) :
    intReadFrom (intWriteTo v ++ rest) = (.ok v, rest) := by
  have hu : toUnsigned 32 v < 2 ^ 32 := toUnsigned_lt 32 v
  have hfull : readFull 4 (intWriteTo v ++ rest) =
      (.ok (intWriteTo v), rest) :=
    readFull_append (by simp [intWriteTo])
  have hval : beVal (intWriteTo v) = toUnsigned 32 v := by
    simp [beVal, intWriteTo]
    omega
  simp only [intReadFrom, hfull, hval]
  have := toSigned_toUnsigned (w := 32) (v := v) (by norm_num)
    (by norm_num; omega) (by norm_num; omega)
  rw [this]

theorem beVal_beBytes8 (u : Nat) (h : u < 2 ^ 64) : beVal (beBytes8 u) = u := by
  simp [beVal, beBytes8]
  omega

theorem longReadFrom_beBytes8 (u : Nat) (h : u < 2 ^ 64) (rest : List Nat) :
    longReadFrom (beBytes8 u ++ rest) = (.ok (toSigned 64 u), rest) := by
  have hfull : readFull 8 (beBytes8 u ++ rest) = (.ok (beBytes8 u), rest) :=
    readFull_append (by simp [beBytes8])
  simp only [longReadFrom, hfull, beVal_beBytes8 u h]

theorem longRoundTrip (v : Int) (rest : List Nat)
    (h1 : -(2 ^ 63) ≤ v) (h2 : v < 2 ^ 63) :
    longReadFrom (longWriteTo v ++ rest) = (.ok v, rest) := by
  have hu : toUnsigned 64 v < 2 ^ 64 := toUnsigned_lt 64 v
  unfold longWriteTo
  rw [longReadFrom_beBytes8 (toUnsigned 64 v) hu rest]
  have := toSigned_toUnsigned (w := 64) (v := v) (by norm_num)
    (by norm_num; omega) (by norm_num; omega)
  rw [this]

theorem floatRoundTrip (bits : Nat) (rest : List Nat) (h : bits < 2 ^ 32) :
    floatReadFrom (floatWriteTo bits ++ rest) = (.ok bits, rest) := by
  have hs : -(2 ^ 31) ≤ toSigned 32 bits ∧ toSigned 32 bits < 2 ^ 31 := by
    unfold toSigned
    norm_num
    split <;> omega
  unfold floatWriteTo floatReadFrom
  rw [intRoundTrip (toSigned 32 bits) rest hs.1 hs.2]
  simp only [ReadRes.map]
  have : toUnsigned 32 (toSigned 32 bits) = bits := by
    unfold toSigned toUnsigned
    norm_num
    split <;> omega
  rw [this]

theorem doubleRoundTrip (bits : Nat) (rest : List Nat) (h : bits < 2 ^ 64) :
    doubleReadFrom (doubleWriteTo bits ++ rest) = (.ok bits, rest) := by
  have hs : -(2 ^ 63) ≤ toSigned 64 bits ∧ toSigned 64 bits < 2 ^ 63 := by
    unfold toSigned
    norm_num
    split <;> omega
  unfold doubleWriteTo doubleReadFrom
  rw [longRoundTrip (toSigned 64 bits) rest hs.1 hs.2]
  simp only [ReadRes.map]
  have : toUnsigned 64 (toSigned 64 bits) = bits := by
    unfold toSigned toUnsigned
    norm_num
    split <;> omega
  rw [this]

theorem stringRoundTrip (s rest : List Nat) (h : (s.length : Int) < 2 ^ 31) :
    stringReadFrom (stringWriteTo s ++ rest) = (.ok s, rest) := by
  have hlen : -(2 ^ 31) ≤ (s.length : Int) := by omega
  have hneg : ¬ ((s.length : Int) < 0) := by omega
  unfold stringWriteTo stringReadFrom
  rw [List.append_assoc,
    varIntReadFrom_writeTo (s.length : Int) (s ++ rest) hlen h]
  simp only [if_neg hneg, Int.toNat_natCast, readFull_append rfl]

theorem uuidRoundTrip (u rest : List Nat) (h : u.length = 16) :
    uuidReadFrom (uuidWriteTo u ++ rest) = (.ok u, rest) := by
  unfold uuidReadFrom uuidWriteTo
  exact readFull_append h

theorem positionRoundTrip (x y z : Int) (rest : List Nat)
    (hx1 : -(2 ^ 25) ≤ x) (hx2 : x < 2 ^ 25)
    (hy1 : -(2 ^ 11) ≤ y) (hy2 : y < 2 ^ 11)
    (hz1 : -(2 ^ 25) ≤ z) (hz2 : z < 2 ^ 25) :
    positionReadFrom (positionWriteTo x y z ++ rest) =
      (.ok (x, y, z), rest) := by
  have ha := toUnsigned_lt 26 x
  have hb := toUnsigned_lt 26 z
  have hc := toUnsigned_lt 12 y
  have hca := toUnsigned_cast 26 x
  have hcb := toUnsigned_cast 26 z
  have hcc := toUnsigned_cast 12 y
  set a := toUnsigned 26 x with hadef
  set b := toUnsigned 26 z with hbdef
  set c := toUnsigned 12 y with hcdef
  have hu : a * 2 ^ 38 + b * 2 ^ 12 + c < 2 ^ 64 := by omega
  unfold positionWriteTo positionReadFrom
  rw [longReadFrom_beBytes8 _ hu rest]
  have hcu : ((a * 2 ^ 38 + b * 2 ^ 12 + c : Nat) : Int) =
      (a : Int) * 2 ^ 38 + (b : Int) * 2 ^ 12 + (c : Int) := by push_cast; ring
  unfold toSigned toUnsigned
  norm_num
  split <;> split <;> split <;> split <;> split <;> omega

/-- Packet framing round trip, Pack then Unpack (packet.go). -/
theorem packetRoundTrip (pid : Int) (body rest : List Nat)
    (h1 : -(2 ^ 31) ≤ pid) (h2 : pid < 2 ^ 31)
    (h3 : (varIntLen pid : Int) + (body.length : Int) < 2 ^ 31) :
    packetUnpack (packetPack pid body ++ rest) = (.ok (pid, body), rest) := by
  have hlenpos : 0 < varIntLen pid := writeVarAux_length_pos _
  have hL1 : -(2 ^ 31) ≤ (varIntLen pid : Int) + (body.length : Int) := by
    omega
  unfold packetPack packetUnpack
  rw [List.append_assoc, List.append_assoc,
    varIntReadFrom_writeTo _ _ hL1 h3]
  have hge : ¬ ((varIntLen pid : Int) + (body.length : Int) < 1) := by omega
  have htn : ((varIntLen pid : Int) + (body.length : Int)).toNat =
      varIntLen pid + body.length := by omega
  have hlen : (varIntWriteTo pid ++ body).length =
      varIntLen pid + body.length := by
    simp [varIntLen]
  have hslen : ((varIntWriteTo pid ++ body) ++ rest).length =
      varIntLen pid + body.length + rest.length := by
    simp [varIntLen]
    omega
  have honce : readOnce (varIntLen pid + body.length)
      ((varIntWriteTo pid ++ body) ++ rest) =
      (.ok (varIntWriteTo pid ++ body), rest) := by
    unfold readOnce
    rw [if_neg (by omega)]
    have hne : ¬ ((varIntWriteTo pid ++ body) ++ rest = []) := by
      intro hc
      have h0 := congrArg List.length hc
      rw [hslen] at h0
      simp at h0
      omega
    rw [if_neg hne]
    have hmin : min (varIntLen pid + body.length)
        ((varIntWriteTo pid ++ body) ++ rest).length =
        varIntLen pid + body.length := by
      rw [hslen]
      omega
    rw [hmin, Nat.sub_self, List.replicate_zero, List.append_nil,
      ← hlen, List.take_left, List.drop_left]
  have hstream : varIntWriteTo pid ++ (body ++ rest) =
      (varIntWriteTo pid ++ body) ++ rest := (List.append_assoc _ _ _).symm
  simp only [if_neg hge, htn, hstream, honce,
    varIntReadFrom_writeTo pid body h1 h2]

/-! ## Claim theorems -/

/-- C1: the claim says a handshake with protocol_version ≠ 754 is rejected
(readHandshake returns an error, the connection closes without a Login
Success).  The code disagrees: on the handshake body
Handshake(753, "localhost", 25565, next_state = 2) — bytes
VarInt 753 = [241, 5], String "localhost", UnsignedShort 25565 = [99, 221],
VarInt 2 — readHandshake returns state 2 with a nil error, because the
next-state read overwrites the protocol-version error; newPlayer therefore
proceeds to Login and sends Login Success. -/
theorem c1_wrong_protocol_accepted :
    readHandshake ([241, 5] ++
      [9, 108, 111, 99, 97, 108, 104, 111, 115, 116] ++ [99, 221] ++ [2]) =
    (some 2, none) := by decide

/-- C2: after addPlayer(P) then addPlayer(Q) with the same username "bob",
the registry holds exactly the new player and the prior holder has been
removed and disconnected — but the online counter ends at 0, not at the
claimed single-add baseline 1: addPlayer decrements through removePlayer
for the evicted player and increments only when no prior existed. -/
theorem c2_duplicate_username_counter_drops :
    (let h0 : Nat → PlayerSt := fun k =>
       if k = 1 then ⟨"bob", false, false⟩
       else if k = 2 then ⟨"bob", false, false⟩
       else ⟨"", false, false⟩
     let s2 := addPlayer (addPlayer ⟨[], h0, 0⟩ 1) 2
     (s2.reg, s2.heap 1, s2.counter)) =
    ([("bob", 2)], ⟨"bob", true, true⟩, 0) := by decide

/-- C3: with sessions a, b, c in the registry and the chat write to b
failing, the code removes b but then removePlayerAndExit runs
runtime.Goexit: the message is delivered only to a — the broadcast never
reaches c — and the goroutine running the broadcast (the sender's packet
handler) is terminated, contrary to the claim that the broadcast
continues and the failure has no effect on the sender's session. -/
theorem c3_broadcast_failure_aborts_iteration :
    (let h0 : Nat → PlayerSt := fun k =>
       if k = 1 then ⟨"a", false, false⟩
       else if k = 2 then ⟨"b", false, false⟩
       else ⟨"c", false, false⟩
     let r := broadcastChatMessage ⟨[("a", 1), ("b", 2), ("c", 3)], h0, 3⟩
       (fun pk => pk == 2)
     (r.2.1, r.2.2, r.1.reg, r.1.heap 2)) =
    ([1], true, [("a", 1), ("c", 3)], ⟨"b", true, true⟩) := by decide

/-- C4: the Play dispatch condition for 0x12/0x13 compares the raw z
coordinates instead of their chunk coordinates: moving from z = 0 to
z = 1 stays inside chunk 0 on both axes (coordinateToChunk 1 =
coordinateToChunk 0 and x is unchanged), yet the code's condition holds
and an Update View Position packet is sent, contrary to the claim that
the packet is sent iff a chunk coordinate changed. -/
theorem c4_update_view_sent_on_same_chunk_z_move :
    positionChunkChanged 0 0 0 1 = true ∧
      coordinateToChunk 1 = coordinateToChunk 0 := by
  constructor
  · decide
  · norm_num [coordinateToChunk]

/-- C5: the claim says VarInt.ReadFrom errors instead of consuming a 6th
byte after five continuation bytes.  The code's guard is `n > 5`, checked
before each read, so a 6th byte is consumed: on
[0x80, 0x80, 0x80, 0x80, 0x80, 0x00] the decode succeeds with value 0 and
an empty remainder (all six bytes eaten).  VarLong's guard `n >= 10` does
match the claim: after ten continuation bytes it errors with the 11th
byte still unread. -/
theorem c5_varint_consumes_sixth_byte :
    varIntReadFrom [128, 128, 128, 128, 128, 0] = (.ok 0, []) ∧
      varLongReadFrom
        [128, 128, 128, 128, 128, 128, 128, 128, 128, 128, 1] =
        (.ioErr, [1]) := by decide

/-- C6: the claim says String.ReadFrom returns an error for every length
prefix, including one that decodes to a negative value.  The bytes
[255, 255, 255, 255, 15] decode as VarInt -1, and `make([]byte, l)` with
a negative length panics at runtime instead of returning an error. -/
theorem c6_string_negative_length_panics :
    varIntReadFrom [255, 255, 255, 255, 15] = (.ok (-1), []) ∧
      stringReadFrom [255, 255, 255, 255, 15] = (.crash, []) := by decide

/-- C7: Packet.Unpack rejects length < 1 (second conjunct), but a short
body is not a fatal error: the frame [5, 1, 170] declares a 5-byte body
with only two bytes available, and the single `r.Read` call returns the
available bytes without error, leaving the rest of the buffer zero — so
Unpack succeeds with id 1 and the silently zero-padded body
[170, 0, 0, 0], contrary to the claim. -/
theorem c7_unpack_zero_pads_short_body :
    packetUnpack [5, 1, 170] = (.ok (1, [170, 0, 0, 0]), []) ∧
      packetUnpack [0, 1] = (.ioErr, [1]) := by decide

/-- C8: packet framing round-trips: for every packet id and body, packing
the frame VarInt(id_len + body_len) | VarInt(id) | body and then
unpacking it yields exactly the id and the body, with the rest of the
stream untouched (id in int32 range; total length within int32). -/
theorem c8_packet_framing_round_trip (pid : Int) (body rest : List Nat)
    (h1 : -(2 ^ 31) ≤ pid) (h2 : pid < 2 ^ 31)
    (h3 : (varIntLen pid : Int) + (body.length : Int) < 2 ^ 31) :
    packetUnpack (packetPack pid body ++ rest) = (.ok (pid, body), rest) :=
  packetRoundTrip pid body rest h1 h2 h3

theorem c8_packet_framing_round_trip_witness :
    -(2 ^ 31) ≤ (1 : Int) ∧ (1 : Int) < 2 ^ 31 ∧
      (varIntLen 1 : Int) + (([170, 7] : List Nat).length : Int) < 2 ^ 31 ∧
      packetUnpack (packetPack 1 [170, 7] ++ [9]) =
        (.ok (1, [170, 7]), [9]) := by
  have hv : varIntLen 1 = 1 := by
    rw [varIntLen, varIntWriteTo,
      show toUnsigned 32 1 = 1 from by norm_num [toUnsigned],
      writeVarAux_small (by norm_num)]
    rfl
  refine ⟨by norm_num, by norm_num, by rw [hv]; norm_num, ?_⟩
  exact c8_packet_framing_round_trip 1 [170, 7] [9] (by norm_num)
    (by norm_num) (by rw [hv]; norm_num)

/-- C9: every primitive field codec round-trips over its domain —
Boolean, Byte, UnsignedByte, Short, UnsignedShort, Int, Long, Float and
Double (by their IEEE-754 bit patterns, which is all the codec moves),
String, VarInt, VarLong, UUID — and Position round-trips for x, z in
[-2^25, 2^25) and y in [-2^11, 2^11), with signed fields recovered
by the decoder's sign fix-ups. -/
theorem c9_field_codecs_round_trip :
    (∀ b rest, booleanReadFrom (booleanWriteTo b ++ rest) = (.ok b, rest)) ∧
    (∀ v rest, -(2 ^ 7) ≤ v → v < 2 ^ 7 →
      byteReadFrom (byteWriteTo v ++ rest) = (.ok v, rest)) ∧
    (∀ u rest, u < 256 →
      unsignedByteReadFrom (unsignedByteWriteTo u ++ rest) = (.ok u, rest)) ∧
    (∀ v rest, -(2 ^ 15) ≤ v → v < 2 ^ 15 →
      shortReadFrom (shortWriteTo v ++ rest) = (.ok v, rest)) ∧
    (∀ u rest, u < 2 ^ 16 →
      unsignedShortReadFrom (unsignedShortWriteTo u ++ rest) =
        (.ok u, rest)) ∧
    (∀ v rest, -(2 ^ 31) ≤ v → v < 2 ^ 31 →
      intReadFrom (intWriteTo v ++ rest) = (.ok v, rest)) ∧
    (∀ v rest, -(2 ^ 63) ≤ v → v < 2 ^ 63 →
      longReadFrom (longWriteTo v ++ rest) = (.ok v, rest)) ∧
    (∀ bits rest, bits < 2 ^ 32 →
      floatReadFrom (floatWriteTo bits ++ rest) = (.ok bits, rest)) ∧
    (∀ bits rest, bits < 2 ^ 64 →
      doubleReadFrom (doubleWriteTo bits ++ rest) = (.ok bits, rest)) ∧
    (∀ s rest, ((s : List Nat).length : Int) < 2 ^ 31 →
      stringReadFrom (stringWriteTo s ++ rest) = (.ok s, rest)) ∧
    (∀ v rest, -(2 ^ 31) ≤ v → v < 2 ^ 31 →
      varIntReadFrom (varIntWriteTo v ++ rest) = (.ok v, rest)) ∧
    (∀ v rest, -(2 ^ 63) ≤ v → v < 2 ^ 63 →
      varLongReadFrom (varLongWriteTo v ++ rest) = (.ok v, rest)) ∧
    (∀ u rest, (u : List Nat).length = 16 →
      uuidReadFrom (uuidWriteTo u ++ rest) = (.ok u, rest)) ∧
    (∀ x y z rest, -(2 ^ 25) ≤ x → x < 2 ^ 25 → -(2 ^ 11) ≤ y →
      y < 2 ^ 11 → -(2 ^ 25) ≤ z → z < 2 ^ 25 →
      positionReadFrom (positionWriteTo x y z ++ rest) =
        (.ok (x, y, z), rest)) :=
  ⟨booleanRoundTrip, byteRoundTrip, unsignedByteRoundTrip, shortRoundTrip,
   unsignedShortRoundTrip, intRoundTrip, longRoundTrip, floatRoundTrip,
   doubleRoundTrip, stringRoundTrip, varIntReadFrom_writeTo,
   varLongReadFrom_writeTo, uuidRoundTrip, positionRoundTrip⟩

theorem c9_field_codecs_round_trip_witness :
    booleanReadFrom (booleanWriteTo true ++ [7]) = (.ok true, [7]) ∧
    byteReadFrom (byteWriteTo (-100) ++ [7]) = (.ok (-100), [7]) ∧
    unsignedByteReadFrom (unsignedByteWriteTo 200 ++ [7]) =
      (.ok 200, [7]) ∧
    shortReadFrom (shortWriteTo (-1000) ++ [7]) = (.ok (-1000), [7]) ∧
    unsignedShortReadFrom (unsignedShortWriteTo 40000 ++ [7]) =
      (.ok 40000, [7]) ∧
    intReadFrom (intWriteTo (-100000) ++ [7]) = (.ok (-100000), [7]) ∧
    longReadFrom (longWriteTo (-(2 ^ 40)) ++ [7]) = (.ok (-(2 ^ 40)), [7]) ∧
    floatReadFrom (floatWriteTo 3212836864 ++ [7]) =
      (.ok 3212836864, [7]) ∧
    doubleReadFrom (doubleWriteTo (2 ^ 63 + 5) ++ [7]) =
      (.ok (2 ^ 63 + 5), [7]) ∧
    stringReadFrom (stringWriteTo [104, 105] ++ [7]) =
      (.ok [104, 105], [7]) ∧
    varIntReadFrom (varIntWriteTo (-2) ++ [7]) = (.ok (-2), [7]) ∧
    varLongReadFrom (varLongWriteTo (-2) ++ [7]) = (.ok (-2), [7]) ∧
    uuidReadFrom (uuidWriteTo (List.replicate 16 9) ++ [7]) =
      (.ok (List.replicate 16 9), [7]) ∧
    positionReadFrom (positionWriteTo (-10) (-1) 5 ++ [7]) =
      (.ok (-10, -1, 5), [7]) := by
  obtain ⟨hbool, hbyte, hub, hshort, hus, hint, hlong, hfloat, hdouble,
    hstr, hvi, hvl, huuid, hpos⟩ := c9_field_codecs_round_trip
  exact ⟨hbool true [7],
    hbyte (-100) [7] (by norm_num) (by norm_num),
    hub 200 [7] (by norm_num),
    hshort (-1000) [7] (by norm_num) (by norm_num),
    hus 40000 [7] (by norm_num),
    hint (-100000) [7] (by norm_num) (by norm_num),
    hlong (-(2 ^ 40)) [7] (by norm_num) (by norm_num),
    hfloat 3212836864 [7] (by norm_num),
    hdouble (2 ^ 63 + 5) [7] (by norm_num),
    hstr [104, 105] [7] (by norm_num),
    hvi (-2) [7] (by norm_num) (by norm_num),
    hvl (-2) [7] (by norm_num) (by norm_num),
    huuid (List.replicate 16 9) [7] (by simp),
    hpos (-10) (-1) 5 [7] (by norm_num) (by norm_num) (by norm_num)
      (by norm_num) (by norm_num) (by norm_num)⟩

/-- C10: the VarInt decoder accepts non-minimal encodings — the two-byte
stream [0x80, 0x00] decodes to 0 — so while decode ∘ encode is the
identity on int32 values, the decoder is not a right inverse of the
encoder: encoding the decoded value 0 yields [0x00], not [0x80, 0x00]. -/
theorem c10_varint_overlong_encoding_accepted :
    (∀ v rest, -(2 ^ 31) ≤ v → v < 2 ^ 31 →
      varIntReadFrom (varIntWriteTo v ++ rest) = (.ok v, rest)) ∧
    varIntReadFrom [128, 0] = (.ok 0, []) ∧
    varIntWriteTo 0 ≠ [128, 0] := by
  have h1 : varIntWriteTo 0 = [0] := by
    rw [varIntWriteTo, show toUnsigned 32 0 = 0 from by norm_num [toUnsigned],
      writeVarAux_small (by norm_num)]
  exact ⟨varIntReadFrom_writeTo, by decide, by rw [h1]; simp⟩

theorem c10_varint_overlong_encoding_accepted_witness :
    -(2 ^ 31) ≤ (-2 : Int) ∧ (-2 : Int) < 2 ^ 31 ∧
      varIntReadFrom (varIntWriteTo (-2) ++ [5]) = (.ok (-2), [5]) ∧
      varIntReadFrom [128, 0] = (.ok 0, []) := by
  obtain ⟨hinv, hovl, _⟩ := c10_varint_overlong_encoding_accepted
  exact ⟨by norm_num, by norm_num,
    hinv (-2) [5] (by norm_num) (by norm_num), hovl⟩

